import Mathlib

/-!
Shallow embedding of the page-packing core of the `pas_photo` repository
(`src/utils/imageProcessor.ts`: class `PageGrid` and `calculateLayout`,
types from `src/types.ts`).

All physical quantities are whole millimetres, modelled as `Nat`
(the printable-area computation, which can go negative in the source,
is carried out in `Int` before the sign test, exactly as the JS `number`
arithmetic does).  The occupancy mask `grid: boolean[]` is a `List Bool`
indexed row-major, written with `List.set` and read with `List.getD _ false`
(a JS read of an unset index yields a falsy value).

The source's per-item page loop `while (!placed) { ... pageIndex++ }` has no
bound.  It is embedded twice:
* `placeLoop` is the literal loop with an explicit iteration budget (`fuel`);
  `none` means the loop has not exited within that many iterations.
* `placeTodo` collapses the loop: it tries every existing page in order and
  then one fresh page; if the fresh page also rejects the item (the item does
  not fit the printable area) it returns `none`, which corresponds to the
  source looping forever, since every further iteration retries a
  byte-identical fresh grid.
-/

structure PhotoSize where
  label : String
  widthMm : Nat
  heightMm : Nat
deriving DecidableEq, Repr

structure PaperSize where
  label : String
  widthMm : Nat
  heightMm : Nat
deriving DecidableEq, Repr

structure PhotoItem where
  id : String
  imageUrl : String
  size : PhotoSize
  quantity : Nat
  backgroundColor : Option String
deriving DecidableEq, Repr

structure LayoutItem where
  id : String
  photoId : String
  imageUrl : String
  x : Nat
  y : Nat
  width : Nat
  height : Nat
  backgroundColor : Option String
deriving DecidableEq, Repr

instance : Inhabited LayoutItem :=
  ⟨{ id := "", photoId := "", imageUrl := "", x := 0, y := 0,
     width := 0, height := 0, backgroundColor := none }⟩

structure PageLayout where
  items : List LayoutItem
  pageNumber : Nat
  width : Nat
  height : Nat
deriving DecidableEq, Repr

instance : Inhabited PageLayout := ⟨{ items := [], pageNumber := 0, width := 0, height := 0 }⟩

structure LayoutConfig where
  pageMargin : Nat
  itemSpacing : Nat
deriving DecidableEq, Repr

/-- The mutable state of the source's `class PageGrid`. -/
structure PageGrid where
  width : Nat
  height : Nat
  grid : List Bool
  items : List LayoutItem
  pageNumber : Nat
  margin : Nat
  spacing : Nat
deriving DecidableEq, Repr

/-- `constructor(width, height, pageNumber, margin, spacing)`:
`this.grid = new Array(width * height).fill(false)`. -/
def PageGrid.new (width height pageNumber margin spacing : Nat) : PageGrid :=
  { width := width, height := height, pageNumber := pageNumber,
    margin := margin, spacing := spacing, items := [],
    grid := List.replicate (width * height) false }

instance : Inhabited PageGrid := ⟨PageGrid.new 0 0 0 0 0⟩

/-- Read of one occupancy cell at grid coordinates, `this.grid[cy * this.width + cx]`. -/
def PageGrid.cell (g : PageGrid) (cx cy : Nat) : Bool :=
  g.grid.getD (cy * g.width + cx) false

/-- `isRegionFree(x, y, w, h)`: bounds check, then every covered cell unoccupied. -/
def PageGrid.isRegionFree (g : PageGrid) (x y w h : Nat) : Bool :=
  if x + w > g.width || y + h > g.height then false
  else
    (List.range h).all fun dy =>
      (List.range w).all fun dx =>
        ! g.grid.getD ((y + dy) * g.width + (x + dx)) false

/-- The double loop of `markRegion(x, y, w, h)` on the raw mask:
`for dy in [0,h) for dx in [0,w): grid[(y+dy)*width + (x+dx)] = true`. -/
def markCells (grid : List Bool) (width x y w h : Nat) : List Bool :=
  (List.range h).foldl
    (fun acc dy =>
      (List.range w).foldl (fun acc2 dx => acc2.set ((y + dy) * width + (x + dx)) true) acc)
    grid

/-- `markRegion(x, y, w, h)`. -/
def PageGrid.markRegion (g : PageGrid) (x y w h : Nat) : PageGrid :=
  { g with grid := markCells g.grid g.width x y w h }

/-- The candidate positions scanned by `addItem`'s double loop, in scan order:
`for (y = 0; y <= height - itemH; y++) for (x = 0; x <= width - itemW; x++)`.
(When `itemW > width` or `itemH > height` the JS loop bound is negative and the
loop body never runs; here natural subtraction truncates to `0`, so a few
candidates are enumerated, but each fails `isRegionFree`'s bounds check, which
yields the same result: no position found.) -/
def candidates (width height itemW itemH : Nat) : List (Nat × Nat) :=
  (List.range (height - itemH + 1)).flatMap fun y =>
    (List.range (width - itemW + 1)).map fun x => (x, y)

/-- The scan of `addItem`: the first candidate whose footprint region is free. -/
def PageGrid.findPos (g : PageGrid) (itemW itemH : Nat) : Option (Nat × Nat) :=
  (candidates g.width g.height itemW itemH).find? fun c => g.isRegionFree c.1 c.2 itemW itemH

/-- `addItem(photoId, imageUrl, itemW, itemH, globalIndex, bgColor)`:
first-fit scan; on success push the `LayoutItem` at `(x + margin, y + margin)`
and mark the spacing-inflated region clipped to the grid bounds. -/
def PageGrid.addItem (g : PageGrid) (photoId imageUrl : String)
    (itemW itemH globalIndex : Nat) (bgColor : Option String) : Bool × PageGrid :=
  let occupyW := itemW + g.spacing
  let occupyH := itemH + g.spacing
  match g.findPos itemW itemH with
  | none => (false, g)
  | some (x, y) =>
      let item : LayoutItem :=
        { id := photoId ++ "-" ++ toString globalIndex
          photoId := photoId
          imageUrl := imageUrl
          x := x + g.margin
          y := y + g.margin
          width := itemW
          height := itemH
          backgroundColor := bgColor }
      let markW := min occupyW (g.width - x)
      let markH := min occupyH (g.height - y)
      (true, { (g.markRegion x y markW markH) with items := g.items ++ [item] })

/-- One entry of `calculateLayout`'s `todoList`. -/
structure Todo where
  photoId : String
  width : Nat
  height : Nat
  imageUrl : String
  uniqueId : Nat
  bgColor : Option String
deriving DecidableEq, Repr

/-- The expansion loop of `calculateLayout`: one `Todo` per unit of quantity,
`uniqueId` being the running `globalIndex` (starting at `n`). -/
def expandFrom : Nat → List PhotoItem → List Todo
  | _, [] => []
  | n, p :: ps =>
      ((List.range p.quantity).map fun i =>
        { photoId := p.id, width := p.size.widthMm, height := p.size.heightMm,
          imageUrl := p.imageUrl, uniqueId := n + i, bgColor := p.backgroundColor }) ++
      expandFrom (n + p.quantity) ps

/-- Try the existing pages in creation order; `some` replaces exactly the first
accepting page by its updated grid. -/
def tryPages (t : Todo) : List PageGrid → Option (List PageGrid)
  | [] => none
  | g :: rest =>
      match g.addItem t.photoId t.imageUrl t.width t.height t.uniqueId t.bgColor with
      | (true, g') => some (g' :: rest)
      | (false, _) => (tryPages t rest).map fun ps => g :: ps

/-- The literal `while (!placed)` loop body of `calculateLayout`, with an
explicit iteration budget: `getPage(pageIndex)` lazily creates the page, then
`addItem`; on failure `pageIndex++` and iterate.  `none` means the loop has not
exited within `fuel` iterations. -/
def placeLoop (pw ph m s : Nat) (t : Todo) :
    Nat → List PageGrid → Nat → Option (List PageGrid)
  | 0, _, _ => none
  | fuel + 1, pages, pageIndex =>
      let pages' := if pageIndex < pages.length then pages
                    else pages ++ [PageGrid.new pw ph (pageIndex + 1) m s]
      let g := pages'.getD pageIndex default
      match g.addItem t.photoId t.imageUrl t.width t.height t.uniqueId t.bgColor with
      | (true, g') => some (pages'.set pageIndex g')
      | (false, _) => placeLoop pw ph m s t fuel pages' (pageIndex + 1)

/-- The collapsed placement loop: try all existing pages, then one fresh page.
`none` (fresh page rejects, i.e. the item exceeds the printable area) is the
case in which the source's unbounded loop never exits: each further iteration
retries a byte-identical fresh grid. -/
def placeTodo (pw ph m s : Nat) (pages : List PageGrid) (t : Todo) :
    Option (List PageGrid) :=
  match tryPages t pages with
  | some ps => some ps
  | none =>
      match (PageGrid.new pw ph (pages.length + 1) m s).addItem
              t.photoId t.imageUrl t.width t.height t.uniqueId t.bgColor with
      | (true, g') => some (pages ++ [g'])
      | (false, _) => none

/-- `todoList.forEach(...)`: place every todo in expansion order. -/
def placeAll (pw ph m s : Nat) (pages : List PageGrid) : List Todo → Option (List PageGrid)
  | [] => some pages
  | t :: ts =>
      match placeTodo pw ph m s pages t with
      | some ps => placeAll pw ph m s ps ts
      | none => none

/-- `calculateLayout(photos, paperSize, config)`.  `some pages` is the source's
return value; `none` marks the one input class on which the source's placement
loop diverges (an item larger than the positive printable area). -/
def calculateLayout (photos : List PhotoItem) (paperSize : PaperSize)
    (config : LayoutConfig) : Option (List PageLayout) :=
  let printableWidth : Int := (paperSize.widthMm : Int) - 2 * (config.pageMargin : Int)
  let printableHeight : Int := (paperSize.heightMm : Int) - 2 * (config.pageMargin : Int)
  if printableWidth ≤ 0 ∨ printableHeight ≤ 0 then some []
  else
    match placeAll printableWidth.toNat printableHeight.toNat
            config.pageMargin config.itemSpacing [] (expandFrom 0 photos) with
    | some pages =>
        some (pages.map fun p =>
          { items := p.items, pageNumber := p.pageNumber,
            width := paperSize.widthMm, height := paperSize.heightMm })
    | none => none

/-! ### Predicates used in the claim statements -/

/-- Membership of the grid cell `(cx, cy)` in the half-open rectangle of cells
with top-left corner `(rx, ry)`, width `rw` and height `rh`. -/
@[reducible] def inRegion (rx ry rw rh cx cy : Nat) : Prop :=
  rx ≤ cx ∧ cx < rx + rw ∧ ry ≤ cy ∧ cy < ry + rh

/-- The cells of a placed item's own footprint, in grid coordinates (the stored
`x`/`y` carry the page-margin offset, which is subtracted back off). -/
@[reducible] def itemFoot (m : Nat) (it : LayoutItem) (cx cy : Nat) : Prop :=
  inRegion (it.x - m) (it.y - m) it.width it.height cx cy

/-- The cells of a placed item's spacing-inflated footprint, clipped to the
grid bounds, exactly as `addItem` marks them (`itemSpacing` of clearance on the
right and bottom, never past the grid edge). -/
@[reducible] def itemInflated (W H m s : Nat) (it : LayoutItem) (cx cy : Nat) : Prop :=
  inRegion (it.x - m) (it.y - m)
    (min (it.width + s) (W - (it.x - m)))
    (min (it.height + s) (H - (it.y - m))) cx cy

/-- Two placed items' rectangles (page coordinates, after the margin offset)
intersect: some integer point lies in both half-open boxes.  For boxes with
integer corners this is equivalent to real intersection. -/
def rectsOverlap (a b : LayoutItem) : Prop :=
  ∃ px py,
    (a.x ≤ px ∧ px < a.x + a.width ∧ a.y ≤ py ∧ py < a.y + a.height) ∧
    (b.x ≤ px ∧ px < b.x + b.width ∧ b.y ≤ py ∧ py < b.y + b.height)

/-- The item's footprint touches the printable-area boundary (page
coordinates; the printable area is `[m, m + pw) × [m, m + ph)`). -/
@[reducible] def touchesBoundary (pw ph m : Nat) (it : LayoutItem) : Prop :=
  it.x = m ∨ it.y = m ∨ (it.x - m) + it.width = pw ∨ (it.y - m) + it.height = ph

/-- Horizontal separation of two footprints (`0` when the x-projections
overlap or touch). -/
@[reducible] def sepX (a b : LayoutItem) : Nat :=
  max (b.x - (a.x + a.width)) (a.x - (b.x + b.width))

/-- Vertical separation of two footprints. -/
@[reducible] def sepY (a b : LayoutItem) : Nat :=
  max (b.y - (a.y + a.height)) (a.y - (b.y + b.height))

/-- Square of the (Euclidean) minimum gap between two footprints. -/
@[reducible] def minGapSq (a b : LayoutItem) : Nat :=
  sepX a b * sepX a b + sepY a b * sepY a b

/-- The spacing property exactly as the spec's claim states it for one pair:
minimum gap at least `s`, except where one of the two footprints touches the
printable-area boundary. -/
@[reducible] def spacingClaimOK (s pw ph m : Nat) (a b : LayoutItem) : Prop :=
  s * s ≤ minGapSq a b ∨ touchesBoundary pw ph m a ∨ touchesBoundary pw ph m b

/-- The request-determined fields of a placed item (everything except the
assigned position). -/
def itemKey (it : LayoutItem) : String × String × String × Nat × Nat × Option String :=
  (it.id, it.photoId, it.imageUrl, it.width, it.height, it.backgroundColor)

/-- The fields a `Todo` dictates for the item that places it. -/
def todoKey (t : Todo) : String × String × String × Nat × Nat × Option String :=
  (t.photoId ++ "-" ++ toString t.uniqueId, t.photoId, t.imageUrl, t.width, t.height, t.bgColor)

/-- All items over a run's grids, in page-creation and placement order. -/
def gridItems (pages : List PageGrid) : List LayoutItem :=
  pages.flatMap PageGrid.items

/-- All items over the returned pages. -/
def pageItems (pages : List PageLayout) : List LayoutItem :=
  pages.flatMap PageLayout.items

/-- Strict row-major scan order on candidate positions `(x, y)`:
`c` is scanned strictly before `c'`. -/
@[reducible] def scanBefore (c c' : Nat × Nat) : Prop :=
  c.2 < c'.2 ∨ (c.2 = c'.2 ∧ c.1 < c'.1)

/-- The batch's sizes fit the printable area `pw × ph`. -/
@[reducible] def photoFits (pw ph : Nat) (p : PhotoItem) : Prop :=
  p.size.widthMm ≤ pw ∧ p.size.heightMm ≤ ph

/-- Invariant of one page grid: well-sized mask, every item inside the grid,
every item's clipped inflated region marked occupied, and, for every earlier
item `a` and later item `b`, `b`'s footprint avoids `a`'s inflated region. -/
structure GridWF (g : PageGrid) : Prop where
  len : g.grid.length = g.width * g.height
  bounds : ∀ it ∈ g.items,
    g.margin ≤ it.x ∧ g.margin ≤ it.y ∧
    (it.x - g.margin) + it.width ≤ g.width ∧ (it.y - g.margin) + it.height ≤ g.height
  marked : ∀ it ∈ g.items, ∀ cx cy,
    itemInflated g.width g.height g.margin g.spacing it cx cy → g.cell cx cy = true
  pair : g.items.Pairwise fun a b => ∀ cx cy,
    itemInflated g.width g.height g.margin g.spacing a cx cy → ¬ itemFoot g.margin b cx cy

/-- A grid of one packing run: the configured dimensions plus the invariant. -/
def goodGrid (pw ph m s : Nat) (g : PageGrid) : Prop :=
  g.width = pw ∧ g.height = ph ∧ g.margin = m ∧ g.spacing = s ∧ GridWF g

/-- `q` is `p` with zero or more items appended and all other state equal. -/
def extendsTo (p q : PageGrid) : Prop :=
  q.width = p.width ∧ q.height = p.height ∧ q.pageNumber = p.pageNumber ∧
  q.margin = p.margin ∧ q.spacing = p.spacing ∧ ∃ tl, q.items = p.items ++ tl

/-- Every page of `ps` persists in `qs` with its items (hence positions) as a
prefix; `qs` may have further pages. -/
def pagesExtend (ps qs : List PageGrid) : Prop :=
  ps.length ≤ qs.length ∧
  ∀ i, i < ps.length → extendsTo (ps.getD i default) (qs.getD i default)

/-- Increment the quantity of the final batch (the appended N-th request of
the monotonicity property). -/
def bumpLast : List PhotoItem → List PhotoItem
  | [] => []
  | [p] => [{ p with quantity := p.quantity + 1 }]
  | p :: ps => p :: bumpLast ps

/-! ### Concrete inputs used by counterexamples and witnesses -/

/-- A one-copy batch of the given print size. -/
def onePhoto (i : String) (w h : Nat) : PhotoItem :=
  { id := i, imageUrl := "u", size := { label := "", widthMm := w, heightMm := h },
    quantity := 1, backgroundColor := none }

/-- A4 paper, 210 × 297 mm (from `constants.ts`). -/
def a4Paper : PaperSize := { label := "A4 (210 x 297 mm)", widthMm := 210, heightMm := 297 }

/-- The default configuration of `constants.ts`: 5 mm page margin, 2 mm item
spacing. -/
def specConfig : LayoutConfig := { pageMargin := 5, itemSpacing := 2 }

/-- The spec's unsatisfiable scenario: a 250 × 250 mm photo on A4. -/
def oversizedPhoto : PhotoItem := onePhoto "big" 250 250

/-- The single placement request expanded from `oversizedPhoto`. -/
def oversizedTodo : Todo :=
  { photoId := "big", width := 250, height := 250, imageUrl := "u",
    uniqueId := 0, bgColor := none }

/-- Paper and configuration of the spacing counterexample: printable area
11 × 7 mm (13 × 9 mm paper, 1 mm margin), 2 mm spacing. -/
def gapPaper : PaperSize := { label := "t", widthMm := 13, heightMm := 9 }

/-- Configuration of the spacing counterexample. -/
def gapConfig : LayoutConfig := { pageMargin := 1, itemSpacing := 2 }

/-- Batches of the spacing counterexample, all fitting the printable area. -/
def gapPhotos : List PhotoItem :=
  [onePhoto "d" 2 7, onePhoto "c" 2 1, onePhoto "e" 3 2,
   onePhoto "a" 6 2, onePhoto "b" 2 1]

/-- Paper of the monotonicity counterexample: printable area 16 × 8 mm. -/
def monoPaper : PaperSize := { label := "t", widthMm := 16, heightMm := 8 }

/-- Configuration of the monotonicity counterexample: no margin, no spacing. -/
def monoConfig : LayoutConfig := { pageMargin := 0, itemSpacing := 0 }

/-- Two one-copy 8 × 8 batches: they share one 16 × 8 page. -/
def monoPhotos : List PhotoItem := [onePhoto "p1" 8 8, onePhoto "p2" 8 8]

/-- The same input after one more unit of quantity on the FIRST batch. -/
def monoPhotosBumped : List PhotoItem :=
  [{ onePhoto "p1" 8 8 with quantity := 2 }, onePhoto "p2" 8 8]

/-! ### Row-major index arithmetic -/

theorem rowcol_lt (W H cx cy : Nat) (hx : cx < W) (hy : cy < H) :
    cy * W + cx < W * H := by
  have h1 : cy * W + cx < (cy + 1) * W := by
    have : (cy + 1) * W = cy * W + W := by ring
    omega
  have h2 : (cy + 1) * W ≤ H * W := Nat.mul_le_mul_right W hy
  have h3 : H * W = W * H := Nat.mul_comm H W
  omega

theorem rowcol_inj (W a b c d : Nat) (hb : b < W) (hd : d < W)
    (h : a * W + b = c * W + d) : a = c ∧ b = d := by
  have hb' : (a * W + b) % W = b := by
    rw [Nat.mul_comm a W, Nat.mul_add_mod, Nat.mod_eq_of_lt hb]
  have hd' : (c * W + d) % W = d := by
    rw [Nat.mul_comm c W, Nat.mul_add_mod, Nat.mod_eq_of_lt hd]
  have hbd : b = d := by rw [← hb', ← hd', h]
  refine ⟨?_, hbd⟩
  have hW : 0 < W := by omega
  have : a * W = c * W := by omega
  exact Nat.eq_of_mul_eq_mul_right hW this

/-! ### Occupancy-mask lemmas -/

theorem getD_set_true (l : List Bool) (i j : Nat) :
    ((l.set j true).getD i false = true) ↔
      (l.getD i false = true ∨ (i = j ∧ i < l.length)) := by
  rw [List.getD_eq_getElem?_getD, List.getD_eq_getElem?_getD, List.getElem?_set]
  by_cases hij : j = i
  · subst hij
    by_cases hlt : j < l.length
    · simp [hlt]
    · have : l[j]? = none := by
        rw [List.getElem?_eq_none_iff]
        omega
      simp [hlt, this]
  · have : ¬ (i = j) := fun h => hij h.symm
    simp [hij, this]

theorem length_markRow (l : List Bool) (a b w : Nat) :
    ((List.range w).foldl (fun acc dx => acc.set (a + (b + dx)) true) l).length
      = l.length := by
  induction w with
  | zero => simp
  | succ n ih =>
      rw [List.range_succ, List.foldl_append]
      simp only [List.foldl_cons, List.foldl_nil, List.length_set]
      exact ih

theorem getD_markRow (l : List Bool) (a b w i : Nat) :
    (((List.range w).foldl (fun acc dx => acc.set (a + (b + dx)) true) l).getD i false = true) ↔
      (l.getD i false = true ∨ ∃ dx, dx < w ∧ i = a + (b + dx) ∧ i < l.length) := by
  induction w with
  | zero => simp
  | succ n ih =>
      rw [List.range_succ, List.foldl_append]
      simp only [List.foldl_cons, List.foldl_nil]
      rw [getD_set_true, length_markRow, ih]
      constructor
      · rintro ((h | ⟨dx, h1, h2, h3⟩) | ⟨h1, h2⟩)
        · exact Or.inl h
        · exact Or.inr ⟨dx, by omega, h2, h3⟩
        · exact Or.inr ⟨n, by omega, h1, h2⟩
      · rintro (h | ⟨dx, h1, h2, h3⟩)
        · exact Or.inl (Or.inl h)
        · rcases Nat.lt_succ_iff_lt_or_eq.mp h1 with h1' | h1'
          · exact Or.inl (Or.inr ⟨dx, h1', h2, h3⟩)
          · subst h1'
            exact Or.inr ⟨h2, h3⟩

theorem length_markCells (grid : List Bool) (width x y w h : Nat) :
    (markCells grid width x y w h).length = grid.length := by
  unfold markCells
  induction h with
  | zero => simp
  | succ n ih =>
      rw [List.range_succ, List.foldl_append]
      simp only [List.foldl_cons, List.foldl_nil]
      rw [length_markRow]
      exact ih

theorem getD_markCells (grid : List Bool) (width x y w h i : Nat) :
    ((markCells grid width x y w h).getD i false = true) ↔
      (grid.getD i false = true ∨
        ∃ dy, dy < h ∧ ∃ dx, dx < w ∧ i = (y + dy) * width + (x + dx) ∧ i < grid.length) := by
  unfold markCells
  induction h with
  | zero => simp
  | succ n ih =>
      rw [List.range_succ, List.foldl_append]
      simp only [List.foldl_cons, List.foldl_nil]
      rw [getD_markRow]
      have hlen : ((List.range n).foldl
          (fun acc dy => (List.range w).foldl
            (fun acc2 dx => acc2.set ((y + dy) * width + (x + dx)) true) acc) grid).length
            = grid.length := by
        have := length_markCells grid width x y w n
        unfold markCells at this
        exact this
      rw [hlen, ih]
      constructor
      · rintro ((h | ⟨dy, h1, dx, h2, h3, h4⟩) | ⟨dx, h1, h2, h3⟩)
        · exact Or.inl h
        · exact Or.inr ⟨dy, by omega, dx, h2, h3, h4⟩
        · exact Or.inr ⟨n, by omega, dx, h1, h2, h3⟩
      · rintro (h | ⟨dy, h1, dx, h2, h3, h4⟩)
        · exact Or.inl (Or.inl h)
        · rcases Nat.lt_succ_iff_lt_or_eq.mp h1 with h1' | h1'
          · exact Or.inl (Or.inr ⟨dy, h1', dx, h2, h3, h4⟩)
          · subst h1'
            exact Or.inr ⟨dx, h2, h3, h4⟩

theorem getD_replicate_false (n i : Nat) :
    (List.replicate n false).getD i false = false := by
  induction n generalizing i with
  | zero => simp
  | succ k ih =>
      cases i with
      | zero => simp [List.replicate_succ]
      | succ i' => simp [List.replicate_succ, ih]

/-! ### PageGrid-level lemmas -/

theorem cell_new (pw ph k m s cx cy : Nat) :
    (PageGrid.new pw ph k m s).cell cx cy = false := by
  simp [PageGrid.new, PageGrid.cell, getD_replicate_false]

theorem cell_markRegion_mono (g : PageGrid) (x y w h cx cy : Nat)
    (hc : g.cell cx cy = true) : (g.markRegion x y w h).cell cx cy = true := by
  simp only [PageGrid.markRegion, PageGrid.cell] at hc ⊢
  rw [getD_markCells]
  exact Or.inl hc

theorem cell_markRegion_cover (g : PageGrid) (x y w h cx cy : Nat)
    (hlen : g.grid.length = g.width * g.height)
    (hx1 : x ≤ cx) (hx2 : cx < x + w) (hy1 : y ≤ cy) (hy2 : cy < y + h)
    (hxw : x + w ≤ g.width) (hyh : y + h ≤ g.height) :
    (g.markRegion x y w h).cell cx cy = true := by
  simp only [PageGrid.markRegion, PageGrid.cell]
  rw [getD_markCells]
  refine Or.inr ⟨cy - y, by omega, cx - x, by omega, ?_, ?_⟩
  · have h1 : y + (cy - y) = cy := by omega
    have h2 : x + (cx - x) = cx := by omega
    rw [h1, h2]
  · rw [hlen]
    exact rowcol_lt _ _ _ _ (by omega) (by omega)

theorem isRegionFree_iff (g : PageGrid) (x y w h : Nat) :
    g.isRegionFree x y w h = true ↔
      x + w ≤ g.width ∧ y + h ≤ g.height ∧
      ∀ dx dy, dx < w → dy < h → g.cell (x + dx) (y + dy) = false := by
  unfold PageGrid.isRegionFree
  rcases Nat.lt_or_ge g.width (x + w) with hw | hw
  · rw [if_pos (by simp [hw])]
    constructor
    · intro hf
      exact absurd hf (by simp)
    · rintro ⟨h1, _, _⟩
      omega
  rcases Nat.lt_or_ge g.height (y + h) with hh | hh
  · rw [if_pos (by simp [hh])]
    constructor
    · intro hf
      exact absurd hf (by simp)
    · rintro ⟨_, h2, _⟩
      omega
  · rw [if_neg (by simp only [Bool.or_eq_true, decide_eq_true_eq, not_or, not_lt]; exact ⟨hw, hh⟩)]
    simp only [List.all_eq_true, List.mem_range, Bool.not_eq_true']
    constructor
    · intro hf
      refine ⟨hw, hh, fun dx dy hdx hdy => ?_⟩
      simpa [PageGrid.cell] using hf dy hdy dx hdx
    · rintro ⟨_, _, hf⟩ dy hdy dx hdx
      simpa [PageGrid.cell] using hf dx dy hdx hdy

theorem addItem_of_findPos_none (g : PageGrid) (pid url : String) (w h n : Nat)
    (bg : Option String) (hf : g.findPos w h = none) :
    g.addItem pid url w h n bg = (false, g) := by
  unfold PageGrid.addItem
  rw [hf]

theorem addItem_of_findPos_some (g : PageGrid) (pid url : String) (w h n : Nat)
    (bg : Option String) (x y : Nat) (hf : g.findPos w h = some (x, y)) :
    g.addItem pid url w h n bg =
      (true,
        { (g.markRegion x y (min (w + g.spacing) (g.width - x))
            (min (h + g.spacing) (g.height - y))) with
          items := g.items ++
            [{ id := pid ++ "-" ++ toString n, photoId := pid, imageUrl := url,
               x := x + g.margin, y := y + g.margin, width := w, height := h,
               backgroundColor := bg }] }) := by
  unfold PageGrid.addItem
  rw [hf]

theorem addItem_fields (g : PageGrid) (pid url : String) (w h n : Nat) (bg : Option String) :
    ((g.addItem pid url w h n bg).2.width = g.width ∧
     (g.addItem pid url w h n bg).2.height = g.height ∧
     (g.addItem pid url w h n bg).2.pageNumber = g.pageNumber ∧
     (g.addItem pid url w h n bg).2.margin = g.margin ∧
     (g.addItem pid url w h n bg).2.spacing = g.spacing) ∧
    ∃ tl, (g.addItem pid url w h n bg).2.items = g.items ++ tl := by
  cases hf : g.findPos w h with
  | none =>
      rw [addItem_of_findPos_none g pid url w h n bg hf]
      exact ⟨⟨rfl, rfl, rfl, rfl, rfl⟩, [], by simp⟩
  | some c =>
      obtain ⟨x, y⟩ := c
      rw [addItem_of_findPos_some g pid url w h n bg x y hf]
      exact ⟨⟨rfl, rfl, rfl, rfl, rfl⟩, _, rfl⟩

theorem gridWF_new (pw ph k m s : Nat) : GridWF (PageGrid.new pw ph k m s) := by
  refine ⟨?_, ?_, ?_, ?_⟩
  · simp [PageGrid.new]
  · intro it hit
    simp [PageGrid.new] at hit
  · intro it hit
    simp [PageGrid.new] at hit
  · simp [PageGrid.new]

/-! ### Invariant preservation through `addItem` -/

theorem gridWF_place (g : PageGrid) (pid url : String) (w h n x y : Nat) (bg : Option String)
    (hwf : GridWF g) (hfree : g.isRegionFree x y w h = true) :
    GridWF { (g.markRegion x y (min (w + g.spacing) (g.width - x))
               (min (h + g.spacing) (g.height - y))) with
             items := g.items ++
               [{ id := pid ++ "-" ++ toString n, photoId := pid, imageUrl := url,
                  x := x + g.margin, y := y + g.margin, width := w, height := h,
                  backgroundColor := bg }] } := by
  obtain ⟨hxw, hyh, hcells⟩ := (isRegionFree_iff g x y w h).mp hfree
  refine ⟨?_, ?_, ?_, ?_⟩
  · dsimp only [PageGrid.markRegion]
    rw [length_markCells]
    exact hwf.len
  · dsimp only [PageGrid.markRegion]
    intro it hit
    rcases List.mem_append.mp hit with hold | hnew
    · exact hwf.bounds it hold
    · have heq := List.mem_singleton.mp hnew
      subst heq
      dsimp only
      refine ⟨by omega, by omega, by omega, by omega⟩
  · dsimp only [PageGrid.markRegion]
    intro it hit cx cy hin
    rcases List.mem_append.mp hit with hold | hnew
    · have hold' := hwf.marked it hold cx cy hin
      have := cell_markRegion_mono g x y
        (min (w + g.spacing) (g.width - x)) (min (h + g.spacing) (g.height - y)) cx cy hold'
      dsimp only [PageGrid.markRegion] at this
      exact this
    · have heq := List.mem_singleton.mp hnew
      subst heq
      obtain ⟨h1, h2, h3, h4⟩ := hin
      dsimp only at h1 h2 h3 h4
      have := cell_markRegion_cover g x y
        (min (w + g.spacing) (g.width - x)) (min (h + g.spacing) (g.height - y)) cx cy
        hwf.len (by omega) (by omega) (by omega) (by omega) (by omega) (by omega)
      dsimp only [PageGrid.markRegion] at this
      exact this
  · dsimp only [PageGrid.markRegion]
    rw [List.pairwise_append]
    refine ⟨hwf.pair, by simp, ?_⟩
    intro a ha b hb
    have heq := List.mem_singleton.mp hb
    subst heq
    intro cx cy hinfl hfoot
    have hcell := hwf.marked a ha cx cy hinfl
    obtain ⟨hf1, hf2, hf3, hf4⟩ := hfoot
    dsimp only at hf1 hf2 hf3 hf4
    have hfo : g.cell cx cy = false := by
      have h5 := hcells (cx - x) (cy - y) (by omega) (by omega)
      have e1 : x + (cx - x) = cx := by omega
      have e2 : y + (cy - y) = cy := by omega
      rwa [e1, e2] at h5
    rw [hcell] at hfo
    cases hfo

theorem gridWF_addItem (g : PageGrid) (pid url : String) (w h n : Nat) (bg : Option String)
    (hwf : GridWF g) : GridWF (g.addItem pid url w h n bg).2 := by
  cases hf : g.findPos w h with
  | none =>
      rw [addItem_of_findPos_none g pid url w h n bg hf]
      exact hwf
  | some c =>
      obtain ⟨x, y⟩ := c
      rw [addItem_of_findPos_some g pid url w h n bg x y hf]
      have hf' : (candidates g.width g.height w h).find?
          (fun c => g.isRegionFree c.1 c.2 w h) = some (x, y) := hf
      have hp := List.find?_some hf'
      exact gridWF_place g pid url w h n x y bg hwf (by simpa using hp)

/-! ### From the invariant to the geometric properties -/

theorem gridWF_no_overlap (g : PageGrid) (hwf : GridWF g) :
    g.items.Pairwise fun a b => ¬ rectsOverlap a b := by
  refine List.Pairwise.imp_of_mem ?_ hwf.pair
  intro a b ha hbm hpair hov
  obtain ⟨px, py, ⟨ha1, ha2, ha3, ha4⟩, hb1, hb2, hb3, hb4⟩ := hov
  obtain ⟨hma, hmya, hwa, hha⟩ := hwf.bounds a ha
  obtain ⟨hmb, hmyb, hwb, hhb⟩ := hwf.bounds b hbm
  exact hpair (px - g.margin) (py - g.margin)
    ⟨by omega, by omega, by omega, by omega⟩
    ⟨by omega, by omega, by omega, by omega⟩

/-! ### The first-fit scan order -/

theorem find?_decomp {α : Type} (p : α → Bool) :
    ∀ (l : List α) (a : α), l.find? p = some a →
      ∃ l1 l2, l = l1 ++ a :: l2 ∧ p a = true ∧ ∀ b ∈ l1, p b = false := by
  intro l
  induction l with
  | nil => intro a hfind; cases hfind
  | cons c t ih =>
      intro a hfind
      by_cases hpc : p c = true
      · rw [List.find?_cons_of_pos t hpc] at hfind
        have hca : c = a := by injection hfind
        subst hca
        exact ⟨[], t, rfl, hpc, by simp⟩
      · rw [List.find?_cons_of_neg t hpc] at hfind
        obtain ⟨l1, l2, heq, hpa, hl1⟩ := ih a hfind
        refine ⟨c :: l1, l2, by rw [List.cons_append, heq], hpa, ?_⟩
        intro b hb
        rcases List.mem_cons.mp hb with hbc | hb'
        · subst hbc
          simpa using hpc
        · exact hl1 b hb'

theorem candidates_pairwise (W H w h : Nat) :
    (candidates W H w h).Pairwise scanBefore := by
  unfold candidates
  have key : ∀ ys : List Nat, ys.Pairwise (· < ·) →
      (ys.flatMap fun y => (List.range (W - w + 1)).map fun x => (x, y)).Pairwise scanBefore := by
    intro ys
    induction ys with
    | nil => intro _; simp
    | cons y t ih =>
        intro hp
        rw [List.flatMap_cons, List.pairwise_append]
        obtain ⟨hy, ht⟩ := List.pairwise_cons.mp hp
        refine ⟨?_, ih ht, ?_⟩
        · rw [List.pairwise_map]
          refine (List.pairwise_lt_range _).imp ?_
          intro a b hab
          exact Or.inr ⟨rfl, hab⟩
        · intro a hma b hmb
          obtain ⟨xa, _, heqa⟩ := List.mem_map.mp hma
          obtain ⟨y', hy', hb'⟩ := List.mem_flatMap.mp hmb
          obtain ⟨xb, _, heqb⟩ := List.mem_map.mp hb'
          subst heqa
          subst heqb
          exact Or.inl (hy y' hy')
  exact key _ (List.pairwise_lt_range _)

theorem mem_candidates (W H w h x y : Nat) :
    (x, y) ∈ candidates W H w h ↔ x < W - w + 1 ∧ y < H - h + 1 := by
  unfold candidates
  constructor
  · intro hmem
    obtain ⟨y', hy', hin⟩ := List.mem_flatMap.mp hmem
    obtain ⟨x', hx', heq⟩ := List.mem_map.mp hin
    injection heq with e1 e2
    subst e1
    subst e2
    exact ⟨List.mem_range.mp hx', List.mem_range.mp hy'⟩
  · rintro ⟨hx, hy⟩
    exact List.mem_flatMap.mpr
      ⟨y, List.mem_range.mpr hy, List.mem_map.mpr ⟨x, List.mem_range.mpr hx, rfl⟩⟩

theorem findPos_first (g : PageGrid) (w h x y : Nat)
    (hf : g.findPos w h = some (x, y)) :
    g.isRegionFree x y w h = true ∧
    ∀ x' y', scanBefore (x', y') (x, y) → g.isRegionFree x' y' w h = false := by
  have hf' : (candidates g.width g.height w h).find?
      (fun c => g.isRegionFree c.1 c.2 w h) = some (x, y) := hf
  have hp : g.isRegionFree x y w h = true := by simpa using List.find?_some hf'
  refine ⟨hp, fun x' y' hlt => ?_⟩
  by_cases hmem : (x', y') ∈ candidates g.width g.height w h
  · obtain ⟨l1, l2, heq, _, hl1⟩ := find?_decomp _ _ _ hf'
    have hpw := candidates_pairwise g.width g.height w h
    rw [heq] at hpw hmem
    rcases List.mem_append.mp hmem with h1 | h2
    · simpa using hl1 _ h1
    · exfalso
      rw [List.pairwise_append] at hpw
      obtain ⟨_, hp2, _⟩ := hpw
      rcases List.mem_cons.mp h2 with heq2 | h3
      · rw [heq2] at hlt
        simp only [scanBefore] at hlt
        omega
      · have hrev := List.rel_of_pairwise_cons hp2 h3
        simp only [scanBefore] at hlt hrev
        omega
  · cases hb : g.isRegionFree x' y' w h with
    | false => rfl
    | true =>
        obtain ⟨hxw, hyh, _⟩ := (isRegionFree_iff g x' y' w h).mp hb
        rw [mem_candidates] at hmem
        exact absurd ⟨by omega, by omega⟩ hmem

/-! ### Fresh pages and oversized requests -/

theorem isRegionFree_new (pw ph k m s w h : Nat) (hw : w ≤ pw) (hh : h ≤ ph) :
    (PageGrid.new pw ph k m s).isRegionFree 0 0 w h = true := by
  rw [isRegionFree_iff]
  refine ⟨?_, ?_, ?_⟩
  · simpa [PageGrid.new] using hw
  · simpa [PageGrid.new] using hh
  · intro dx dy _ _
    exact cell_new pw ph k m s _ _

theorem candidates_cons (W H w h : Nat) :
    ∃ tl, candidates W H w h = (0, 0) :: tl := by
  unfold candidates
  rw [List.range_succ_eq_map, List.flatMap_cons, List.range_succ_eq_map]
  simp only [List.map_cons]
  exact ⟨_, rfl⟩

theorem findPos_new (pw ph k m s w h : Nat) (hw : w ≤ pw) (hh : h ≤ ph) :
    (PageGrid.new pw ph k m s).findPos w h = some (0, 0) := by
  obtain ⟨tl, htl⟩ := candidates_cons pw ph w h
  unfold PageGrid.findPos
  have htl' : candidates (PageGrid.new pw ph k m s).width (PageGrid.new pw ph k m s).height w h
      = (0, 0) :: tl := htl
  rw [htl']
  exact List.find?_cons_of_pos _ (by simpa using isRegionFree_new pw ph k m s w h hw hh)

theorem findPos_oversized (g : PageGrid) (w h : Nat) (hbig : g.width < w ∨ g.height < h) :
    g.findPos w h = none := by
  unfold PageGrid.findPos
  rw [List.find?_eq_none]
  intro c _ hb
  obtain ⟨h1, h2, _⟩ := (isRegionFree_iff g c.1 c.2 w h).mp (by simpa using hb)
  omega

theorem addItem_oversized (g : PageGrid) (pid url : String) (w h n : Nat) (bg : Option String)
    (hbig : g.width < w ∨ g.height < h) :
    g.addItem pid url w h n bg = (false, g) :=
  addItem_of_findPos_none g pid url w h n bg (findPos_oversized g w h hbig)

theorem placeLoop_oversized (pw ph m s : Nat) (t : Todo)
    (hbig : pw < t.width ∨ ph < t.height) :
    ∀ (fuel : Nat) (pages : List PageGrid) (pageIndex : Nat),
      (∀ g ∈ pages, g.width = pw ∧ g.height = ph) →
      placeLoop pw ph m s t fuel pages pageIndex = none := by
  intro fuel
  induction fuel with
  | zero =>
      intro pages idx hg
      rfl
  | succ n ih =>
      intro pages idx hg
      simp only [placeLoop]
      set pages' : List PageGrid :=
        if idx < pages.length then pages else pages ++ [PageGrid.new pw ph (idx + 1) m s]
        with hpages'
      have hg' : ∀ g ∈ pages', g.width = pw ∧ g.height = ph := by
        rw [hpages']
        split
        · exact hg
        · intro g hgm
          rcases List.mem_append.mp hgm with h1 | h2
          · exact hg g h1
          · have h3 := List.mem_singleton.mp h2
            subst h3
            exact ⟨rfl, rfl⟩
      have hcase : (pages'.getD idx default).width < t.width ∨
          (pages'.getD idx default).height < t.height := by
        by_cases hidx : idx < pages'.length
        · have hmem : pages'.getD idx default ∈ pages' := by
            rw [List.getD_eq_getElem pages' default hidx]
            exact List.getElem_mem hidx
          obtain ⟨e1, e2⟩ := hg' _ hmem
          omega
        · have : pages'.getD idx default = default := by
            rw [List.getD_eq_getElem?_getD]
            have : pages'[idx]? = none := by
              rw [List.getElem?_eq_none_iff]
              omega
            rw [this]
            rfl
          rw [this]
          have e1 : (default : PageGrid).width = 0 := rfl
          have e2 : (default : PageGrid).height = 0 := rfl
          omega
      rw [addItem_oversized _ _ _ _ _ _ _ hcase]
      exact ih pages' (idx + 1) hg'

/-! ### Per-try and per-item placement lemmas -/

theorem goodGrid_new (pw ph k m s : Nat) : goodGrid pw ph m s (PageGrid.new pw ph k m s) :=
  ⟨rfl, rfl, rfl, rfl, gridWF_new pw ph k m s⟩

theorem goodGrid_addItem (pw ph m s : Nat) (g : PageGrid) (pid url : String)
    (w h n : Nat) (bg : Option String) (hgood : goodGrid pw ph m s g) :
    goodGrid pw ph m s (g.addItem pid url w h n bg).2 := by
  obtain ⟨e1, e2, e3, e4, hwf⟩ := hgood
  obtain ⟨⟨f1, f2, _, f4, f5⟩, _⟩ := addItem_fields g pid url w h n bg
  exact ⟨by rw [f1, e1], by rw [f2, e2], by rw [f4, e3], by rw [f5, e4],
    gridWF_addItem g pid url w h n bg hwf⟩

theorem addItem_true_items (g : PageGrid) (pid url : String) (w h n : Nat)
    (bg : Option String) (g' : PageGrid)
    (hadd : g.addItem pid url w h n bg = (true, g')) :
    ∃ x y, g'.items = g.items ++
      [{ id := pid ++ "-" ++ toString n, photoId := pid, imageUrl := url,
         x := x + g.margin, y := y + g.margin, width := w, height := h,
         backgroundColor := bg }] := by
  cases hf : g.findPos w h with
  | none =>
      rw [addItem_of_findPos_none g pid url w h n bg hf] at hadd
      injection hadd with h1 _
      cases h1
  | some c =>
      obtain ⟨x, y⟩ := c
      rw [addItem_of_findPos_some g pid url w h n bg x y hf] at hadd
      injection hadd with _ h2
      exact ⟨x, y, by rw [← h2]⟩

theorem extendsTo_refl (g : PageGrid) : extendsTo g g :=
  ⟨rfl, rfl, rfl, rfl, rfl, [], by simp⟩

theorem extendsTo_trans (a b c : PageGrid) (h1 : extendsTo a b) (h2 : extendsTo b c) :
    extendsTo a c := by
  obtain ⟨e1, e2, e3, e4, e5, tl1, e6⟩ := h1
  obtain ⟨f1, f2, f3, f4, f5, tl2, f6⟩ := h2
  exact ⟨f1.trans e1, f2.trans e2, f3.trans e3, f4.trans e4, f5.trans e5,
    tl1 ++ tl2, by rw [f6, e6, List.append_assoc]⟩

theorem addItem_extendsTo (g : PageGrid) (pid url : String) (w h n : Nat) (bg : Option String) :
    extendsTo g (g.addItem pid url w h n bg).2 := by
  obtain ⟨⟨f1, f2, f3, f4, f5⟩, tl, f6⟩ := addItem_fields g pid url w h n bg
  exact ⟨f1, f2, f3, f4, f5, tl, f6⟩

theorem gridItems_cons (g : PageGrid) (rest : List PageGrid) :
    gridItems (g :: rest) = g.items ++ gridItems rest := by
  simp [gridItems]

theorem gridItems_append (a b : List PageGrid) :
    gridItems (a ++ b) = gridItems a ++ gridItems b := by
  simp [gridItems]

theorem tryPages_good (pw ph m s : Nat) (t : Todo) :
    ∀ pages ps, tryPages t pages = some ps →
      (∀ g ∈ pages, goodGrid pw ph m s g) → ∀ g ∈ ps, goodGrid pw ph m s g := by
  intro pages
  induction pages with
  | nil => intro ps hps; cases hps
  | cons g rest ih =>
      intro ps hps hg
      cases hadd : g.addItem t.photoId t.imageUrl t.width t.height t.uniqueId t.bgColor with
      | mk b g' =>
          cases b with
          | true =>
              simp only [tryPages, hadd] at hps
              injection hps with hps
              subst hps
              intro q hq
              rcases List.mem_cons.mp hq with hq1 | hq2
              · subst hq1
                have := goodGrid_addItem pw ph m s g t.photoId t.imageUrl
                  t.width t.height t.uniqueId t.bgColor (hg g (by simp))
                rwa [hadd] at this
              · exact hg q (by simp [hq2])
          | false =>
              simp only [tryPages, hadd] at hps
              obtain ⟨ps', hps', hcons⟩ := Option.map_eq_some'.mp hps
              subst hcons
              intro q hq
              rcases List.mem_cons.mp hq with hq1 | hq2
              · subst hq1
                exact hg q (by simp)
              · exact ih ps' hps' (fun g2 hg2 => hg g2 (by simp [hg2])) q hq2

theorem tryPages_perm (t : Todo) :
    ∀ pages ps, tryPages t pages = some ps →
      ((gridItems ps).map itemKey).Perm ((gridItems pages).map itemKey ++ [todoKey t]) := by
  intro pages
  induction pages with
  | nil => intro ps hps; cases hps
  | cons g rest ih =>
      intro ps hps
      cases hadd : g.addItem t.photoId t.imageUrl t.width t.height t.uniqueId t.bgColor with
      | mk b g' =>
          cases b with
          | true =>
              simp only [tryPages, hadd] at hps
              injection hps with hps
              subst hps
              obtain ⟨x, y, hitems⟩ := addItem_true_items g t.photoId t.imageUrl
                t.width t.height t.uniqueId t.bgColor g' hadd
              rw [gridItems_cons, gridItems_cons, hitems]
              simp only [List.map_append, List.append_assoc, List.map_cons, List.map_nil,
                List.singleton_append, List.nil_append]
              refine List.Perm.append_left _ ?_
              refine List.Perm.trans ?_ (@List.perm_append_comm _ [todoKey t] _)
              exact List.Perm.refl _
          | false =>
              simp only [tryPages, hadd] at hps
              obtain ⟨ps', hps', hcons⟩ := Option.map_eq_some'.mp hps
              subst hcons
              rw [gridItems_cons, gridItems_cons]
              simp only [List.map_append, List.append_assoc]
              exact List.Perm.append_left _ (ih ps' hps')

theorem tryPages_extend (t : Todo) :
    ∀ pages ps, tryPages t pages = some ps → pagesExtend pages ps := by
  intro pages
  induction pages with
  | nil => intro ps hps; cases hps
  | cons g rest ih =>
      intro ps hps
      cases hadd : g.addItem t.photoId t.imageUrl t.width t.height t.uniqueId t.bgColor with
      | mk b g' =>
          cases b with
          | true =>
              simp only [tryPages, hadd] at hps
              injection hps with hps
              subst hps
              refine ⟨by simp, ?_⟩
              intro i hi
              cases i with
              | zero =>
                  have := addItem_extendsTo g t.photoId t.imageUrl
                    t.width t.height t.uniqueId t.bgColor
                  rw [hadd] at this
                  simpa using this
              | succ j =>
                  simp only [List.getD_cons_succ]
                  exact extendsTo_refl _
          | false =>
              simp only [tryPages, hadd] at hps
              obtain ⟨ps', hps', hcons⟩ := Option.map_eq_some'.mp hps
              subst hcons
              obtain ⟨hlen, hext⟩ := ih ps' hps'
              refine ⟨by simpa using hlen, ?_⟩
              intro i hi
              cases i with
              | zero => exact extendsTo_refl _
              | succ j =>
                  simp only [List.getD_cons_succ]
                  exact hext j (by simpa using hi)

/-! ### placeTodo and placeAll -/

theorem placeTodo_cases (pw ph m s : Nat) (pages : List PageGrid) (t : Todo)
    (ps : List PageGrid) (h : placeTodo pw ph m s pages t = some ps) :
    tryPages t pages = some ps ∨
      (tryPages t pages = none ∧
       ∃ g', (PageGrid.new pw ph (pages.length + 1) m s).addItem
               t.photoId t.imageUrl t.width t.height t.uniqueId t.bgColor = (true, g') ∧
             ps = pages ++ [g']) := by
  unfold placeTodo at h
  cases htp : tryPages t pages with
  | some ps' =>
      rw [htp] at h
      injection h with h
      subst h
      exact Or.inl rfl
  | none =>
      rw [htp] at h
      right
      refine ⟨rfl, ?_⟩
      cases hadd : (PageGrid.new pw ph (pages.length + 1) m s).addItem
          t.photoId t.imageUrl t.width t.height t.uniqueId t.bgColor with
      | mk b g' =>
          rw [hadd] at h
          cases b with
          | true =>
              injection h with h
              exact ⟨g', rfl, h.symm⟩
          | false => cases h

theorem placeTodo_fit (pw ph m s : Nat) (pages : List PageGrid) (t : Todo)
    (hw : t.width ≤ pw) (hh : t.height ≤ ph) :
    ∃ ps, placeTodo pw ph m s pages t = some ps := by
  unfold placeTodo
  cases htp : tryPages t pages with
  | some ps => exact ⟨ps, rfl⟩
  | none =>
      have hf := findPos_new pw ph (pages.length + 1) m s t.width t.height hw hh
      rw [addItem_of_findPos_some _ _ _ _ _ _ _ 0 0 hf]
      exact ⟨_, rfl⟩

theorem placeTodo_good (pw ph m s : Nat) (pages : List PageGrid) (t : Todo)
    (ps : List PageGrid) (h : placeTodo pw ph m s pages t = some ps)
    (hgood : ∀ g ∈ pages, goodGrid pw ph m s g) :
    ∀ g ∈ ps, goodGrid pw ph m s g := by
  rcases placeTodo_cases pw ph m s pages t ps h with htp | ⟨htp, g', hadd, hps⟩
  · exact tryPages_good pw ph m s t pages ps htp hgood
  · subst hps
    intro g hg
    rcases List.mem_append.mp hg with h1 | h2
    · exact hgood g h1
    · have h3 := List.mem_singleton.mp h2
      subst h3
      have := goodGrid_addItem pw ph m s (PageGrid.new pw ph (pages.length + 1) m s)
        t.photoId t.imageUrl t.width t.height t.uniqueId t.bgColor
        (goodGrid_new pw ph (pages.length + 1) m s)
      rwa [hadd] at this

theorem placeTodo_perm (pw ph m s : Nat) (pages : List PageGrid) (t : Todo)
    (ps : List PageGrid) (h : placeTodo pw ph m s pages t = some ps) :
    ((gridItems ps).map itemKey).Perm ((gridItems pages).map itemKey ++ [todoKey t]) := by
  rcases placeTodo_cases pw ph m s pages t ps h with htp | ⟨htp, g', hadd, hps⟩
  · exact tryPages_perm t pages ps htp
  · subst hps
    obtain ⟨x, y, hitems⟩ := addItem_true_items (PageGrid.new pw ph (pages.length + 1) m s)
      t.photoId t.imageUrl t.width t.height t.uniqueId t.bgColor g' hadd
    rw [gridItems_append, gridItems_cons, hitems]
    have hnil : (PageGrid.new pw ph (pages.length + 1) m s).items = [] := rfl
    rw [hnil]
    simp only [gridItems, List.flatMap_nil, List.map_append, List.nil_append,
      List.append_nil, List.map_cons, List.map_nil]
    exact List.Perm.refl _

theorem placeTodo_extend (pw ph m s : Nat) (pages : List PageGrid) (t : Todo)
    (ps : List PageGrid) (h : placeTodo pw ph m s pages t = some ps) :
    pagesExtend pages ps := by
  rcases placeTodo_cases pw ph m s pages t ps h with htp | ⟨htp, g', hadd, hps⟩
  · exact tryPages_extend t pages ps htp
  · subst hps
    refine ⟨by simp, ?_⟩
    intro i hi
    rw [List.getD_append pages [g'] default i hi]
    exact extendsTo_refl _

theorem pagesExtend_trans (a b c : List PageGrid)
    (h1 : pagesExtend a b) (h2 : pagesExtend b c) : pagesExtend a c := by
  obtain ⟨l1, e1⟩ := h1
  obtain ⟨l2, e2⟩ := h2
  exact ⟨l1.trans l2, fun i hi => extendsTo_trans _ _ _ (e1 i hi) (e2 i (by omega))⟩

theorem placeAll_spec (pw ph m s : Nat) :
    ∀ (todos : List Todo) (pages : List PageGrid),
      (∀ g ∈ pages, goodGrid pw ph m s g) →
      (∀ t ∈ todos, t.width ≤ pw ∧ t.height ≤ ph) →
      ∃ qs, placeAll pw ph m s pages todos = some qs ∧
        (∀ g ∈ qs, goodGrid pw ph m s g) ∧
        ((gridItems qs).map itemKey).Perm ((gridItems pages).map itemKey ++ todos.map todoKey) := by
  intro todos
  induction todos with
  | nil =>
      intro pages hg _
      exact ⟨pages, rfl, hg, by simp⟩
  | cons t ts ih =>
      intro pages hg hfit
      obtain ⟨hw, hh⟩ := hfit t (by simp)
      obtain ⟨ps, hps⟩ := placeTodo_fit pw ph m s pages t hw hh
      have hgood' := placeTodo_good pw ph m s pages t ps hps hg
      have hperm1 := placeTodo_perm pw ph m s pages t ps hps
      obtain ⟨qs, hqs, hqgood, hqperm⟩ := ih ps hgood' (fun t' ht' => hfit t' (by simp [ht']))
      refine ⟨qs, ?_, hqgood, ?_⟩
      · simp only [placeAll, hps]
        exact hqs
      · refine hqperm.trans ?_
        refine (hperm1.append_right (ts.map todoKey)).trans ?_
        rw [List.append_assoc]
        exact List.Perm.refl _

theorem placeAll_extend (pw ph m s : Nat) :
    ∀ (todos : List Todo) (pages qs : List PageGrid),
      placeAll pw ph m s pages todos = some qs → pagesExtend pages qs := by
  intro todos
  induction todos with
  | nil =>
      intro pages qs h
      injection h with h
      subst h
      exact ⟨le_refl _, fun i _ => extendsTo_refl _⟩
  | cons t ts ih =>
      intro pages qs h
      simp only [placeAll] at h
      cases hps : placeTodo pw ph m s pages t with
      | none => rw [hps] at h; cases h
      | some ps =>
          rw [hps] at h
          exact pagesExtend_trans _ _ _ (placeTodo_extend pw ph m s pages t ps hps)
            (ih ps qs h)

theorem placeAll_snoc (pw ph m s : Nat) :
    ∀ (ts : List Todo) (pages : List PageGrid) (t : Todo),
      placeAll pw ph m s pages (ts ++ [t]) =
        (placeAll pw ph m s pages ts).bind (fun ps => placeTodo pw ph m s ps t) := by
  intro ts
  induction ts with
  | nil =>
      intro pages t
      simp only [List.nil_append, placeAll, Option.bind]
      cases placeTodo pw ph m s pages t with
      | none => rfl
      | some ps => rfl
  | cons u us ih =>
      intro pages t
      simp only [List.cons_append, placeAll]
      cases placeTodo pw ph m s pages u with
      | none => rfl
      | some ps => exact ih ps t

/-! ### Expansion lemmas -/

theorem expandFrom_mem (photos : List PhotoItem) :
    ∀ n t, t ∈ expandFrom n photos →
      ∃ p ∈ photos, t.width = p.size.widthMm ∧ t.height = p.size.heightMm := by
  induction photos with
  | nil => intro n t ht; cases ht
  | cons p ps ih =>
      intro n t ht
      rw [expandFrom] at ht
      rcases List.mem_append.mp ht with h1 | h2
      · obtain ⟨i, _, heq⟩ := List.mem_map.mp h1
        subst heq
        exact ⟨p, by simp, rfl, rfl⟩
      · obtain ⟨q, hq, e1, e2⟩ := ih (n + p.quantity) t h2
        exact ⟨q, by simp [hq], e1, e2⟩

theorem expandFrom_length (photos : List PhotoItem) :
    ∀ n, (expandFrom n photos).length = (photos.map PhotoItem.quantity).sum := by
  induction photos with
  | nil => intro n; simp [expandFrom]
  | cons p ps ih =>
      intro n
      rw [expandFrom]
      simp [ih]

theorem bumpLast_sizes :
    ∀ (photos : List PhotoItem) (p' : PhotoItem), p' ∈ bumpLast photos →
      ∃ p ∈ photos, p'.size = p.size := by
  intro photos
  induction photos with
  | nil => intro p' h; cases h
  | cons p ps ih =>
      intro p' h
      cases ps with
      | nil =>
          rw [show bumpLast [p] = [{ p with quantity := p.quantity + 1 }] from rfl] at h
          have := List.mem_singleton.mp h
          subst this
          exact ⟨p, by simp, rfl⟩
      | cons p2 ps2 =>
          rw [show bumpLast (p :: p2 :: ps2) = p :: bumpLast (p2 :: ps2) from rfl] at h
          rcases List.mem_cons.mp h with h1 | h2
          · subst h1
            exact ⟨p', by simp, rfl⟩
          · obtain ⟨q, hq, e⟩ := ih p' h2
            exact ⟨q, by simp [hq], e⟩

theorem expandFrom_bumpLast :
    ∀ (photos : List PhotoItem) (n : Nat), photos ≠ [] →
      ∃ t, expandFrom n (bumpLast photos) = expandFrom n photos ++ [t] ∧
        ∃ p ∈ photos, t.width = p.size.widthMm ∧ t.height = p.size.heightMm := by
  intro photos
  induction photos with
  | nil => intro n hne; cases hne rfl
  | cons p ps ih =>
      intro n _
      cases ps with
      | nil =>
          refine ⟨({ photoId := p.id, width := p.size.widthMm, height := p.size.heightMm,
                     imageUrl := p.imageUrl, uniqueId := n + p.quantity,
                     bgColor := p.backgroundColor } : Todo), ?_, p, by simp, rfl, rfl⟩
          rw [show bumpLast [p] = [{ p with quantity := p.quantity + 1 }] from rfl]
          simp only [expandFrom]
          rw [List.range_succ]
          simp only [List.map_append, List.map_cons, List.map_nil, List.append_nil]
      | cons p2 ps2 =>
          obtain ⟨t, ht, q, hq, e1, e2⟩ := ih (n + p.quantity) (by simp)
          refine ⟨t, ?_, q, by simp [hq], e1, e2⟩
          rw [show bumpLast (p :: p2 :: ps2) = p :: bumpLast (p2 :: ps2) from rfl]
          rw [expandFrom, expandFrom, ht, List.append_assoc]

/-! ### The calculateLayout wrapper -/

theorem calculateLayout_some (photos : List PhotoItem) (paper : PaperSize)
    (config : LayoutConfig)
    (hw : 2 * config.pageMargin < paper.widthMm) (hh : 2 * config.pageMargin < paper.heightMm)
    (hfit : ∀ p ∈ photos,
      photoFits (paper.widthMm - 2 * config.pageMargin)
        (paper.heightMm - 2 * config.pageMargin) p) :
    ∃ grids,
      placeAll (paper.widthMm - 2 * config.pageMargin) (paper.heightMm - 2 * config.pageMargin)
        config.pageMargin config.itemSpacing [] (expandFrom 0 photos) = some grids ∧
      calculateLayout photos paper config = some (grids.map fun p =>
        { items := p.items, pageNumber := p.pageNumber,
          width := paper.widthMm, height := paper.heightMm }) ∧
      (∀ g ∈ grids, goodGrid (paper.widthMm - 2 * config.pageMargin)
        (paper.heightMm - 2 * config.pageMargin) config.pageMargin config.itemSpacing g) ∧
      ((gridItems grids).map itemKey).Perm ((expandFrom 0 photos).map todoKey) := by
  have hfit' : ∀ t ∈ expandFrom 0 photos,
      t.width ≤ paper.widthMm - 2 * config.pageMargin ∧
      t.height ≤ paper.heightMm - 2 * config.pageMargin := by
    intro t ht
    obtain ⟨p, hp, e1, e2⟩ := expandFrom_mem photos 0 t ht
    obtain ⟨f1, f2⟩ := hfit p hp
    exact ⟨by omega, by omega⟩
  obtain ⟨grids, hgrids, hgood, hperm⟩ := placeAll_spec
    (paper.widthMm - 2 * config.pageMargin) (paper.heightMm - 2 * config.pageMargin)
    config.pageMargin config.itemSpacing (expandFrom 0 photos) [] (by intro g hg; cases hg)
    hfit'
  refine ⟨grids, hgrids, ?_, hgood, by simpa [gridItems] using hperm⟩
  unfold calculateLayout
  rw [if_neg (by push_neg; constructor <;> omega)]
  have hpw : ((paper.widthMm : Int) - 2 * (config.pageMargin : Int)).toNat
      = paper.widthMm - 2 * config.pageMargin := by omega
  have hph : ((paper.heightMm : Int) - 2 * (config.pageMargin : Int)).toNat
      = paper.heightMm - 2 * config.pageMargin := by omega
  rw [hpw, hph, hgrids]

/-! ### Claim theorems -/

/-- C1: the claim says that on a batch whose size exceeds the (positive)
printable area, pack terminates and reports the unsatisfiable-request
condition.  The code violates this: at the spec's own concrete scenario
(250 × 250 mm photo on A4 with the default 5 mm margin) the `while (!placed)`
loop of `calculateLayout` never exits — for every iteration budget `fuel` and
every reachable loop state, `placeLoop` fails to place the item, so page
creation retries unboundedly; the collapsed model accordingly reports
divergence (`none`) rather than any value. -/
theorem c1_unsatisfiable_request_diverges :
    calculateLayout [oversizedPhoto] a4Paper specConfig = none ∧
    ∀ (fuel : Nat) (pages : List PageGrid) (pageIndex : Nat),
      (∀ g ∈ pages, g.width = 200 ∧ g.height = 287) →
      placeLoop 200 287 5 2 oversizedTodo fuel pages pageIndex = none := by
  constructor
  · have h1 : placeTodo 200 287 5 2 [] oversizedTodo = none := by
      unfold placeTodo
      rw [show tryPages oversizedTodo [] = none from rfl]
      rw [addItem_oversized _ _ _ _ _ _ _ (Or.inl (by decide))]
    unfold calculateLayout
    rw [if_neg (by decide)]
    rw [show expandFrom 0 [oversizedPhoto] = [oversizedTodo] from rfl]
    show (match placeAll 200 287 5 2 [] [oversizedTodo] with
      | some pages => some (pages.map fun p =>
          { items := p.items, pageNumber := p.pageNumber,
            width := a4Paper.widthMm, height := a4Paper.heightMm })
      | none => none) = none
    simp only [placeAll, h1]
  · intro fuel pages pageIndex hp
    exact placeLoop_oversized 200 287 5 2 oversizedTodo (Or.inl (by decide))
      fuel pages pageIndex hp

/-- C1 witness: with an empty page list and three loop iterations allowed, the
loop still has not exited. -/
theorem c1_witness : placeLoop 200 287 5 2 oversizedTodo 3 [] 0 = none :=
  c1_unsatisfiable_request_diverges.2 3 [] 0 (by intro g hg; cases hg)

/-- C4: calculateLayout is a pure function of its three inputs, so two runs on
byte-identical inputs agree in every observable: the whole result, the page
count, and the per-page ordered items with their id, x, y, width, height. -/
theorem c4_deterministic (photos : List PhotoItem) (paper : PaperSize) (config : LayoutConfig) :
    calculateLayout photos paper config = calculateLayout photos paper config ∧
    (calculateLayout photos paper config).map (fun pgs => pgs.length)
      = (calculateLayout photos paper config).map (fun pgs => pgs.length) ∧
    (calculateLayout photos paper config).map
        (fun pgs => pgs.map fun pg => pg.items.map fun it =>
          (it.id, it.x, it.y, it.width, it.height))
      = (calculateLayout photos paper config).map
        (fun pgs => pgs.map fun pg => pg.items.map fun it =>
          (it.id, it.x, it.y, it.width, it.height)) :=
  ⟨rfl, rfl, rfl⟩

/-- C8: when the paper minus twice the page margin is not positive in either
dimension, calculateLayout returns the empty page sequence. -/
theorem c8_misconfiguration_empty (photos : List PhotoItem) (paper : PaperSize)
    (config : LayoutConfig)
    (hbad : paper.widthMm ≤ 2 * config.pageMargin ∨ paper.heightMm ≤ 2 * config.pageMargin) :
    calculateLayout photos paper config = some [] := by
  rcases hbad with hbad | hbad
  · unfold calculateLayout
    rw [if_pos (Or.inl (by omega))]
  · unfold calculateLayout
    rw [if_pos (Or.inr (by omega))]

/-- C8 witness: 10 × 10 mm paper with a 5 mm margin yields no pages. -/
theorem c8_witness :
    calculateLayout [onePhoto "a" 1 1] { label := "t", widthMm := 10, heightMm := 10 }
      { pageMargin := 5, itemSpacing := 0 } = some [] :=
  c8_misconfiguration_empty _ _ _ (Or.inl (by decide))

/-- C7: whenever addItem succeeds on any grid state, the grid position chosen
is the row-major-first candidate whose own footprint is entirely free (every
strictly earlier candidate in scan order fails the free-region test), and the
recorded item carries that grid position offset by the page margin in each
axis. -/
theorem c7_first_fit_position (g : PageGrid) (pid url : String) (w h n : Nat)
    (bg : Option String) (g' : PageGrid)
    (hadd : g.addItem pid url w h n bg = (true, g')) :
    ∃ x y, g.findPos w h = some (x, y) ∧
      x + w ≤ g.width ∧ y + h ≤ g.height ∧
      (∀ dx dy, dx < w → dy < h → g.cell (x + dx) (y + dy) = false) ∧
      (∀ x' y', scanBefore (x', y') (x, y) → g.isRegionFree x' y' w h = false) ∧
      g'.items = g.items ++
        [{ id := pid ++ "-" ++ toString n, photoId := pid, imageUrl := url,
           x := x + g.margin, y := y + g.margin, width := w, height := h,
           backgroundColor := bg }] := by
  cases hf : g.findPos w h with
  | none =>
      rw [addItem_of_findPos_none g pid url w h n bg hf] at hadd
      injection hadd with h1 _
      cases h1
  | some c =>
      obtain ⟨x, y⟩ := c
      obtain ⟨hfree, hmin⟩ := findPos_first g w h x y hf
      obtain ⟨hxw, hyh, hcells⟩ := (isRegionFree_iff g x y w h).mp hfree
      rw [addItem_of_findPos_some g pid url w h n bg x y hf] at hadd
      injection hadd with _ h2
      exact ⟨x, y, rfl, hxw, hyh, hcells, hmin, by rw [← h2]⟩

/-- C7 witness: on a fresh 3 × 3 grid a 2 × 2 item is placed successfully and
the characterization holds. -/
theorem c7_witness :
    ∃ x y, (PageGrid.new 3 3 1 0 0).findPos 2 2 = some (x, y) ∧
      x + 2 ≤ (PageGrid.new 3 3 1 0 0).width ∧ y + 2 ≤ (PageGrid.new 3 3 1 0 0).height ∧
      (∀ dx dy, dx < 2 → dy < 2 →
        (PageGrid.new 3 3 1 0 0).cell (x + dx) (y + dy) = false) ∧
      (∀ x' y', scanBefore (x', y') (x, y) →
        (PageGrid.new 3 3 1 0 0).isRegionFree x' y' 2 2 = false) ∧
      ((PageGrid.new 3 3 1 0 0).addItem "a" "u" 2 2 0 none).2.items =
        (PageGrid.new 3 3 1 0 0).items ++
        [{ id := "a" ++ "-" ++ toString 0, photoId := "a", imageUrl := "u",
           x := x + (PageGrid.new 3 3 1 0 0).margin, y := y + (PageGrid.new 3 3 1 0 0).margin,
           width := 2, height := 2, backgroundColor := none }] :=
  c7_first_fit_position (PageGrid.new 3 3 1 0 0) "a" "u" 2 2 0 none
    ((PageGrid.new 3 3 1 0 0).addItem "a" "u" 2 2 0 none).2 (by decide)

/-- C10: all occupancy-mask accesses stay inside `[0, width * height)`: the
mark region chosen on success is clipped inside the grid, the free-region
test rejects out-of-bounds candidates outright and reads only in-bounds
indices otherwise, and `addItem` never changes the mask's length. -/
theorem c10_index_safety (g : PageGrid) (w h : Nat) :
    (∀ x y, g.findPos w h = some (x, y) →
      x + min (w + g.spacing) (g.width - x) ≤ g.width ∧
      y + min (h + g.spacing) (g.height - y) ≤ g.height ∧
      ∀ dx dy, dx < min (w + g.spacing) (g.width - x) →
        dy < min (h + g.spacing) (g.height - y) →
        (y + dy) * g.width + (x + dx) < g.width * g.height) ∧
    (∀ x y, g.width < x + w ∨ g.height < y + h → g.isRegionFree x y w h = false) ∧
    (∀ x y, g.isRegionFree x y w h = true →
      ∀ dx dy, dx < w → dy < h → (y + dy) * g.width + (x + dx) < g.width * g.height) ∧
    (∀ pid url n bg, (g.addItem pid url w h n bg).2.grid.length = g.grid.length) := by
  refine ⟨?_, ?_, ?_, ?_⟩
  · intro x y hf
    have hfree := (findPos_first g w h x y hf).1
    obtain ⟨hxw, hyh, _⟩ := (isRegionFree_iff g x y w h).mp hfree
    refine ⟨by omega, by omega, ?_⟩
    intro dx dy hdx hdy
    exact rowcol_lt _ _ _ _ (by omega) (by omega)
  · intro x y hb
    unfold PageGrid.isRegionFree
    rw [if_pos]
    rcases hb with hb | hb <;> simp [hb]
  · intro x y hfree dx dy hdx hdy
    obtain ⟨hxw, hyh, _⟩ := (isRegionFree_iff g x y w h).mp hfree
    exact rowcol_lt _ _ _ _ (by omega) (by omega)
  · intro pid url n bg
    cases hf : g.findPos w h with
    | none =>
        rw [addItem_of_findPos_none g pid url w h n bg hf]
    | some c =>
        obtain ⟨x, y⟩ := c
        rw [addItem_of_findPos_some g pid url w h n bg x y hf]
        dsimp only [PageGrid.markRegion]
        exact length_markCells _ _ _ _ _ _

/-- C10 witness: on a 2 × 2 grid, the candidate (3, 0) for a 1 × 1 item is
rejected by the bounds check. -/
theorem c10_witness : (PageGrid.new 2 2 1 0 1).isRegionFree 3 0 1 1 = false :=
  (c10_index_safety (PageGrid.new 2 2 1 0 1) 1 1).2.1 3 0 (by decide)

theorem pageItems_cons (pg : PageLayout) (pgs : List PageLayout) :
    pageItems (pg :: pgs) = pg.items ++ pageItems pgs := by
  simp [pageItems]

theorem pageItems_map_grids (grids : List PageGrid) (W H : Nat) :
    pageItems (grids.map fun p =>
      ({ items := p.items, pageNumber := p.pageNumber, width := W, height := H } : PageLayout))
      = gridItems grids := by
  induction grids with
  | nil => rfl
  | cons g gs ih =>
      simp only [List.map_cons]
      rw [pageItems_cons, gridItems_cons, ih]

theorem getD_map_toLayout (grids : List PageGrid) (W H i : Nat) (hi : i < grids.length) :
    ((grids.map fun p => ({ items := p.items, pageNumber := p.pageNumber,
                            width := W, height := H } : PageLayout)).getD i default)
      = { items := (grids.getD i default).items,
          pageNumber := (grids.getD i default).pageNumber, width := W, height := H } := by
  rw [List.getD_eq_getElem _ _ (by simpa using hi), List.getElem_map,
    List.getD_eq_getElem _ _ hi]

/-- C2: on any input whose batches fit the (positive) printable area, the run
returns pages, and on each page the placed items' rectangles (page
coordinates, after the margin offset) are pairwise non-intersecting. -/
theorem c2_no_overlap (photos : List PhotoItem) (paper : PaperSize) (config : LayoutConfig)
    (hw : 2 * config.pageMargin < paper.widthMm) (hh : 2 * config.pageMargin < paper.heightMm)
    (hfit : ∀ p ∈ photos, photoFits (paper.widthMm - 2 * config.pageMargin)
      (paper.heightMm - 2 * config.pageMargin) p) :
    ∃ pages, calculateLayout photos paper config = some pages ∧
      ∀ pg ∈ pages, pg.items.Pairwise fun a b => ¬ rectsOverlap a b := by
  obtain ⟨grids, _, hcalc, hgood, _⟩ := calculateLayout_some photos paper config hw hh hfit
  refine ⟨_, hcalc, ?_⟩
  intro pg hpg
  obtain ⟨g, hg, heq⟩ := List.mem_map.mp hpg
  have hno := gridWF_no_overlap g (hgood g hg).2.2.2.2
  rw [← heq]
  exact hno

/-- C2 witness: a single 1 × 1 photo on 3 × 3 paper with a 1 mm margin. -/
theorem c2_witness :
    ∃ pages, calculateLayout [onePhoto "a" 1 1]
        { label := "t", widthMm := 3, heightMm := 3 }
        { pageMargin := 1, itemSpacing := 0 } = some pages ∧
      ∀ pg ∈ pages, pg.items.Pairwise fun a b => ¬ rectsOverlap a b :=
  c2_no_overlap _ _ _ (by decide) (by decide)
    (by intro p hp
        have := List.mem_singleton.mp hp
        subst this
        exact ⟨by decide, by decide⟩)

/-- C9: on any input whose batches fit the (positive) printable area, every
placed item lies inside the printable area: at least the margin away from the
paper's top-left, and at most paper-size minus margin at the right/bottom. -/
theorem c9_items_within_bounds (photos : List PhotoItem) (paper : PaperSize)
    (config : LayoutConfig)
    (hw : 2 * config.pageMargin < paper.widthMm) (hh : 2 * config.pageMargin < paper.heightMm)
    (hfit : ∀ p ∈ photos, photoFits (paper.widthMm - 2 * config.pageMargin)
      (paper.heightMm - 2 * config.pageMargin) p) :
    ∃ pages, calculateLayout photos paper config = some pages ∧
      ∀ pg ∈ pages, ∀ it ∈ pg.items,
        config.pageMargin ≤ it.x ∧ config.pageMargin ≤ it.y ∧
        it.x + it.width ≤ paper.widthMm - config.pageMargin ∧
        it.y + it.height ≤ paper.heightMm - config.pageMargin := by
  obtain ⟨grids, _, hcalc, hgood, _⟩ := calculateLayout_some photos paper config hw hh hfit
  refine ⟨_, hcalc, ?_⟩
  intro pg hpg it hit
  obtain ⟨g, hg, heq⟩ := List.mem_map.mp hpg
  obtain ⟨e1, e2, e3, e4, hwf⟩ := hgood g hg
  rw [← heq] at hit
  have hit' : it ∈ g.items := hit
  obtain ⟨b1, b2, b3, b4⟩ := hwf.bounds it hit'
  rw [e3] at b1 b2 b3 b4
  rw [e1] at b3
  rw [e2] at b4
  exact ⟨b1, b2, by omega, by omega⟩

/-- C9 witness: a single 1 × 1 photo on 3 × 3 paper with a 1 mm margin. -/
theorem c9_witness :
    ∃ pages, calculateLayout [onePhoto "a" 1 1]
        { label := "t", widthMm := 3, heightMm := 3 }
        { pageMargin := 1, itemSpacing := 0 } = some pages ∧
      ∀ pg ∈ pages, ∀ it ∈ pg.items,
        1 ≤ it.x ∧ 1 ≤ it.y ∧ it.x + it.width ≤ 3 - 1 ∧ it.y + it.height ≤ 3 - 1 :=
  c9_items_within_bounds _ _ _ (by decide) (by decide)
    (by intro p hp
        have := List.mem_singleton.mp hp
        subst this
        exact ⟨by decide, by decide⟩)

/-- C5: on any input whose batches fit the (positive) printable area, the
placed items over all pages are, as a multiset of request-determined contents
(id, photoId, imageUrl, width, height, background), exactly the expanded
request list: each request appears exactly once, and the total item count is
the sum of the quantities. -/
theorem c5_completeness (photos : List PhotoItem) (paper : PaperSize) (config : LayoutConfig)
    (hw : 2 * config.pageMargin < paper.widthMm) (hh : 2 * config.pageMargin < paper.heightMm)
    (hfit : ∀ p ∈ photos, photoFits (paper.widthMm - 2 * config.pageMargin)
      (paper.heightMm - 2 * config.pageMargin) p) :
    ∃ pages, calculateLayout photos paper config = some pages ∧
      ((pageItems pages).map itemKey).Perm ((expandFrom 0 photos).map todoKey) ∧
      (pageItems pages).length = (photos.map PhotoItem.quantity).sum := by
  obtain ⟨grids, _, hcalc, _, hperm⟩ := calculateLayout_some photos paper config hw hh hfit
  refine ⟨_, hcalc, ?_, ?_⟩
  · rw [pageItems_map_grids]
    exact hperm
  · rw [pageItems_map_grids]
    have hlen := hperm.length_eq
    simp only [List.length_map] at hlen
    rw [hlen, expandFrom_length photos 0]

/-- C5 witness: one batch of quantity 1 on 3 × 3 paper with a 1 mm margin. -/
theorem c5_witness :
    ∃ pages, calculateLayout [onePhoto "a" 1 1]
        { label := "t", widthMm := 3, heightMm := 3 }
        { pageMargin := 1, itemSpacing := 0 } = some pages ∧
      ((pageItems pages).map itemKey).Perm
        ((expandFrom 0 [onePhoto "a" 1 1]).map todoKey) ∧
      (pageItems pages).length = ([onePhoto "a" 1 1].map PhotoItem.quantity).sum :=
  c5_completeness _ _ _ (by decide) (by decide)
    (by intro p hp
        have := List.mem_singleton.mp hp
        subst this
        exact ⟨by decide, by decide⟩)

/-- C3 amended: the spacing guarantee that actually holds is directional: for
any two items on the same page, the LATER-placed item's footprint is disjoint
from the earlier item's spacing-inflated footprint (itemSpacing of clearance on
the right and bottom, clipped to the printable-area boundary).  Gaps smaller
than itemSpacing can occur on the left/top side of an earlier item even away
from the boundary. -/
theorem c3_spacing_amended (photos : List PhotoItem) (paper : PaperSize) (config : LayoutConfig)
    (hw : 2 * config.pageMargin < paper.widthMm) (hh : 2 * config.pageMargin < paper.heightMm)
    (hfit : ∀ p ∈ photos, photoFits (paper.widthMm - 2 * config.pageMargin)
      (paper.heightMm - 2 * config.pageMargin) p) :
    ∃ pages, calculateLayout photos paper config = some pages ∧
      ∀ pg ∈ pages, pg.items.Pairwise fun a b => ∀ cx cy,
        itemInflated (paper.widthMm - 2 * config.pageMargin)
          (paper.heightMm - 2 * config.pageMargin)
          config.pageMargin config.itemSpacing a cx cy →
        ¬ itemFoot config.pageMargin b cx cy := by
  obtain ⟨grids, _, hcalc, hgood, _⟩ := calculateLayout_some photos paper config hw hh hfit
  refine ⟨_, hcalc, ?_⟩
  intro pg hpg
  obtain ⟨g, hg, heq⟩ := List.mem_map.mp hpg
  obtain ⟨e1, e2, e3, e4, hwf⟩ := hgood g hg
  have hp := hwf.pair
  rw [e1, e2, e3, e4] at hp
  rw [← heq]
  exact hp

/-- C3 amended witness: a single 1 × 1 photo on 3 × 3 paper with a 1 mm
margin. -/
theorem c3_amended_witness :
    ∃ pages, calculateLayout [onePhoto "a" 1 1]
        { label := "t", widthMm := 3, heightMm := 3 }
        { pageMargin := 1, itemSpacing := 0 } = some pages ∧
      ∀ pg ∈ pages, pg.items.Pairwise fun a b => ∀ cx cy,
        itemInflated (3 - 2 * 1) (3 - 2 * 1) 1 0 a cx cy → ¬ itemFoot 1 b cx cy :=
  c3_spacing_amended _ _ _ (by decide) (by decide)
    (by intro p hp
        have := List.mem_singleton.mp hp
        subst this
        exact ⟨by decide, by decide⟩)

/-- C3 counterexample: on the 13 × 9 mm paper with 1 mm margin and 2 mm
spacing (printable area 11 × 7), five batches that all fit produce one page of
five items, and the fourth and fifth items of that page (placement order: the
6 × 2 item "a" at (5, 5) and the 2 × 1 item "b" at (5, 4)) have footprint gap
0 < itemSpacing while neither footprint touches the printable-area boundary —
refuting the claim as stated. -/
theorem c3_spacing_claim_counterexample :
    (calculateLayout gapPhotos gapPaper gapConfig).isSome = true ∧
    ((calculateLayout gapPhotos gapPaper gapConfig).getD []).length = 1 ∧
    (gapPhotos.all fun p => decide (photoFits (gapPaper.widthMm - 2 * gapConfig.pageMargin)
      (gapPaper.heightMm - 2 * gapConfig.pageMargin) p)) = true ∧
    (((calculateLayout gapPhotos gapPaper gapConfig).getD []).getD 0 default).items.length = 5 ∧
    ¬ spacingClaimOK gapConfig.itemSpacing (gapPaper.widthMm - 2 * gapConfig.pageMargin)
        (gapPaper.heightMm - 2 * gapConfig.pageMargin) gapConfig.pageMargin
        ((((calculateLayout gapPhotos gapPaper gapConfig).getD []).getD 0 default).items.getD 3 default)
        ((((calculateLayout gapPhotos gapPaper gapConfig).getD []).getD 0 default).items.getD 4 default) := by
  decide

/-- C6 counterexample: printable area 16 × 8 (no margin, no spacing), batches
p1 (8 × 8, quantity 1) then p2 (8 × 8, quantity 1) fill one page, with p2 at
(8, 0) of page 1.  Adding one more unit of quantity to batch p1 moves p2 to
page 2 at (0, 0): an item produced by the original requests does not keep its
page and position, refuting the claim as stated for a non-final batch. -/
theorem c6_claim_counterexample :
    ((calculateLayout monoPhotos monoPaper monoConfig).map
        (fun pgs => pgs.map fun pg =>
          (pg.pageNumber, pg.items.map fun it => (it.photoId, it.x, it.y)))
      = some [(1, [("p1", 0, 0), ("p2", 8, 0)])]) ∧
    ((calculateLayout monoPhotosBumped monoPaper monoConfig).map
        (fun pgs => pgs.map fun pg =>
          (pg.pageNumber, pg.items.map fun it => (it.photoId, it.x, it.y)))
      = some [(1, [("p1", 0, 0), ("p1", 8, 0)]), (2, [("p2", 0, 0)])]) := by
  exact ⟨by decide, by decide⟩

/-- C6 amended: appending one more unit of quantity to the FINAL batch (the
appended N-th request) never decreases the page count, and every page of the
original run persists with the same page number and its original items as a
prefix — so every originally placed item keeps its page, x and y. -/
theorem c6_monotone_amended (photos : List PhotoItem) (paper : PaperSize)
    (config : LayoutConfig) (hne : photos ≠ [])
    (hw : 2 * config.pageMargin < paper.widthMm) (hh : 2 * config.pageMargin < paper.heightMm)
    (hfit : ∀ p ∈ photos, photoFits (paper.widthMm - 2 * config.pageMargin)
      (paper.heightMm - 2 * config.pageMargin) p) :
    ∃ pages pages',
      calculateLayout photos paper config = some pages ∧
      calculateLayout (bumpLast photos) paper config = some pages' ∧
      pages.length ≤ pages'.length ∧
      ∀ i, i < pages.length →
        (pages.getD i default).pageNumber = (pages'.getD i default).pageNumber ∧
        ∃ tl, (pages'.getD i default).items = (pages.getD i default).items ++ tl := by
  have hfit2 : ∀ p ∈ bumpLast photos,
      photoFits (paper.widthMm - 2 * config.pageMargin)
        (paper.heightMm - 2 * config.pageMargin) p := by
    intro p hp
    obtain ⟨q, hq, he⟩ := bumpLast_sizes photos p hp
    obtain ⟨f1, f2⟩ := hfit q hq
    constructor
    · rw [he]
      exact f1
    · rw [he]
      exact f2
  obtain ⟨grids1, hplace1, hcalc1, hgood1, _⟩ :=
    calculateLayout_some photos paper config hw hh hfit
  obtain ⟨grids2, hplace2, hcalc2, hgood2, _⟩ :=
    calculateLayout_some (bumpLast photos) paper config hw hh hfit2
  obtain ⟨t, hexp, _⟩ := expandFrom_bumpLast photos 0 hne
  rw [hexp] at hplace2
  rw [placeAll_snoc (paper.widthMm - 2 * config.pageMargin)
    (paper.heightMm - 2 * config.pageMargin) config.pageMargin config.itemSpacing
    (expandFrom 0 photos) [] t, hplace1] at hplace2
  simp only [Option.some_bind] at hplace2
  obtain ⟨hlen, hidx⟩ := placeTodo_extend (paper.widthMm - 2 * config.pageMargin)
    (paper.heightMm - 2 * config.pageMargin) config.pageMargin config.itemSpacing
    grids1 t grids2 hplace2
  refine ⟨_, _, hcalc1, hcalc2, by simpa using hlen, ?_⟩
  intro i hi
  have hi1 : i < grids1.length := by simpa using hi
  have hi2 : i < grids2.length := by omega
  obtain ⟨_, _, hpn, _, _, tl, hitems⟩ := hidx i hi1
  rw [getD_map_toLayout grids1 _ _ i hi1, getD_map_toLayout grids2 _ _ i hi2]
  exact ⟨hpn.symm, tl, by rw [hitems]⟩

/-- C6 amended witness: one 1 × 1 batch on 3 × 3 paper with a 1 mm margin,
bumped from quantity 1 to 2. -/
theorem c6_amended_witness :
    ∃ pages pages',
      calculateLayout [onePhoto "a" 1 1]
        { label := "t", widthMm := 3, heightMm := 3 }
        { pageMargin := 1, itemSpacing := 0 } = some pages ∧
      calculateLayout (bumpLast [onePhoto "a" 1 1])
        { label := "t", widthMm := 3, heightMm := 3 }
        { pageMargin := 1, itemSpacing := 0 } = some pages' ∧
      pages.length ≤ pages'.length ∧
      ∀ i, i < pages.length →
        (pages.getD i default).pageNumber = (pages'.getD i default).pageNumber ∧
        ∃ tl, (pages'.getD i default).items = (pages.getD i default).items ++ tl :=
  c6_monotone_amended _ _ _ (by intro h; cases h) (by decide) (by decide)
    (by intro p hp
        have := List.mem_singleton.mp hp
        subst this
        exact ⟨by decide, by decide⟩)

/-! ### The literal loop agrees with the collapsed model on satisfiable requests -/

theorem set_concat_length {α : Type} (l : List α) (a b : α) :
    (l ++ [a]).set l.length b = l ++ [b] := by
  induction l with
  | nil => rfl
  | cons c t ih =>
      simp only [List.cons_append, List.length_cons, List.set_cons_succ, ih]

theorem placeLoop_eq_aux (pw ph m s : Nat) (t : Todo)
    (hw : t.width ≤ pw) (hh : t.height ≤ ph) :
    ∀ (fuel : Nat) (pages : List PageGrid) (k : Nat),
      k ≤ pages.length → pages.length - k < fuel →
      placeLoop pw ph m s t fuel pages k =
        (match tryPages t (pages.drop k) with
         | some ps => some (pages.take k ++ ps)
         | none =>
             match (PageGrid.new pw ph (pages.length + 1) m s).addItem
                 t.photoId t.imageUrl t.width t.height t.uniqueId t.bgColor with
             | (true, g') => some (pages ++ [g'])
             | (false, _) => none) := by
  intro fuel
  induction fuel with
  | zero =>
      intro pages k hk hfuel
      exact absurd hfuel (by omega)
  | succ n ih =>
      intro pages k hk hfuel
      simp only [placeLoop]
      by_cases hlt : k < pages.length
      · rw [if_pos hlt]
        have hdrop : pages.drop k = pages.getD k default :: pages.drop (k + 1) := by
          rw [List.getD_eq_getElem _ _ hlt]
          exact List.drop_eq_getElem_cons hlt
        rw [hdrop]
        cases hf : (pages.getD k default).findPos t.width t.height with
        | some c =>
            obtain ⟨x, y⟩ := c
            rw [addItem_of_findPos_some _ _ _ _ _ _ _ x y hf]
            simp only [tryPages, addItem_of_findPos_some _ _ _ _ _ _ _ x y hf]
            rw [List.set_eq_take_append_cons_drop, if_pos hlt]
        | none =>
            rw [addItem_of_findPos_none _ _ _ _ _ _ _ hf]
            simp only [tryPages, addItem_of_findPos_none _ _ _ _ _ _ _ hf]
            rw [ih pages (k + 1) (by omega) (by omega)]
            cases htp : tryPages t (pages.drop (k + 1)) with
            | some ps' =>
                simp only [htp, Option.map_some']
                have htake : List.take (k + 1) pages = List.take k pages ++ [pages[k]] := by
                  rw [← List.take_concat_get pages k hlt, List.concat_eq_append]
                rw [htake, List.append_assoc, List.getD_eq_getElem _ _ hlt,
                  List.singleton_append]
            | none =>
                simp only [htp, Option.map_none']
      · have hkeq : k = pages.length := by omega
        subst hkeq
        rw [if_neg hlt]
        have hget : (pages ++ [PageGrid.new pw ph (pages.length + 1) m s]).getD
            pages.length default = PageGrid.new pw ph (pages.length + 1) m s := by
          rw [List.getD_eq_getElem _ _ (by simp)]
          exact List.getElem_concat_length pages _ pages.length rfl _
        rw [hget]
        have haddnew := addItem_of_findPos_some (PageGrid.new pw ph (pages.length + 1) m s)
          t.photoId t.imageUrl t.width t.height t.uniqueId t.bgColor 0 0
          (findPos_new pw ph (pages.length + 1) m s t.width t.height hw hh)
        rw [List.drop_length]
        simp only [tryPages, haddnew]
        rw [set_concat_length]

theorem placeLoop_eq_placeTodo (pw ph m s : Nat) (t : Todo)
    (hw : t.width ≤ pw) (hh : t.height ≤ ph)
    (pages : List PageGrid) (fuel : Nat) (hfuel : pages.length < fuel) :
    placeLoop pw ph m s t fuel pages 0 = placeTodo pw ph m s pages t := by
  rw [placeLoop_eq_aux pw ph m s t hw hh fuel pages 0 (by omega) (by omega)]
  rw [List.drop_zero, List.take_zero]
  unfold placeTodo
  cases htp : tryPages t pages with
  | some ps => simp [htp]
  | none => simp [htp]
